import Mathlib

/-!
Shallow embedding of the `signer` package of hsm-tools (`signer/utils.go`),
together with the parts of the record model its functions depend on.
Go strings are modelled as Lean `String` (the zones at play are ASCII);
unsigned 32-bit arithmetic is modelled on `Nat` with explicit `% 2^32`.
-/

/-- ASCII lowercasing of one character, as `strings.ToLower` acts on ASCII. -/
def toLowerChar (c : Char) : Char :=
  if 'A' ≤ c ∧ c ≤ 'Z' then Char.ofNat (c.toNat + 32) else c

/-- Model of `strings.ToLower` on ASCII strings. -/
def toLowerStr (s : String) : String := ⟨s.data.map toLowerChar⟩

/-- Header shared by every resource record (`dns.RR_Header`). -/
structure RRHeader where
  name : String
  rrtype : Nat
  rrclass : Nat
  ttl : Nat
deriving DecidableEq, Repr

/-- Type-specific payload of a record.  The SOA payload carries the fields of
`dns.SOA` that `ReadAndParseZone` reads and writes; every other record type is
opaque to the functions under study and is carried as raw bytes. -/
inductive RData where
  | soa (ns mbox : String) (serial refresh retryI expire minttl : Nat)
  | other (raw : List Nat)
deriving DecidableEq, Repr

/-- A resource record: header plus payload (`dns.RR`). -/
structure RR where
  hdr : RRHeader
  rdata : RData
deriving DecidableEq, Repr

/-- The zone-normalisation step of `ReadAndParseZone`:
`if args.Zone[len(args.Zone)-1] != '.' { args.Zone = args.Zone + "." }`.
Go indexes the byte at `len-1`; on the empty string this access is out of
bounds and panics, which the model renders as `none`. -/
def normalizeZone (z : String) : Option String := do
  let c ← z.data.get? (z.data.length - 1)
  pure (if c ≠ '.' then z ++ "." else z)

/-- The `uint32` increment by 2 (`soa.Serial += 2`). -/
def u32Add2 (s : Nat) : Nat := (s + 2) % 4294967296

/-- The SOA branch of the parse loop: on an SOA record with `updateSerial`
set, the serial is incremented by 2 in place; every other record (and every
record when `updateSerial` is unset) is untouched. -/
def updateSOA (updateSerial : Bool) (rr : RR) : RR :=
  match rr with
  | ⟨hdr, .soa ns mbox serial refresh retryI expire minttl⟩ =>
      if updateSerial then ⟨hdr, .soa ns mbox (u32Add2 serial) refresh retryI expire minttl⟩
      else rr
  | _ => rr

/-- The serial of a record when it is an SOA. -/
def soaSerial (rr : RR) : Option Nat :=
  match rr.rdata with
  | .soa _ _ serial _ _ _ _ => some serial
  | _ => none

/-- The `minimum` field of a record when it is an SOA. -/
def soaMinttl (rr : RR) : Option Nat :=
  match rr.rdata with
  | .soa _ _ _ _ _ _ minttl => some minttl
  | _ => none

/-- Splitting a character list at the dots, accumulating the current label. -/
def splitLabelsAux (cur : List Char) : List Char → List (List Char)
  | [] => [cur.reverse]
  | c :: cs => if c = '.' then cur.reverse :: splitLabelsAux [] cs
               else splitLabelsAux (c :: cur) cs

/-- Modelled from the spec: the owner-name key of the record ordering used by
`sort.Sort(rrs)` (the `RRArray` comparison lives in a file of the repository
that is not under `src/`): the owner name is lowercased, split into labels
(empty labels from the trailing root dot dropped), and the labels are
compared from the rightmost one, so the key is the reversed label list. -/
def canonicalLabels (name : String) : List (List Char) :=
  ((splitLabelsAux [] (name.data.map toLowerChar)).filter (fun l => l ≠ [])).reverse

/-- The label key of a record's owner name. -/
def nameLabels (rr : RR) : List (List Char) := canonicalLabels rr.hdr.name

/-- Modelled from the spec: the record ordering of `RRArray`: owner names
compared label-by-label from the rightmost label (each label as octets after
lowercasing), ties broken by type code ascending. -/
def leRR (a b : RR) : Prop :=
  nameLabels a < nameLabels b ∨ (nameLabels a = nameLabels b ∧ a.hdr.rrtype ≤ b.hdr.rrtype)

instance : DecidableRel leRR := fun a b => by
  unfold leRR; infer_instance

/-- Model of `sort.Sort(rrs)` on the record array, modelled as a deterministic
comparison sort under the `RRArray` ordering (Go's `sort.Sort` runs an
insertion sort on the small slices all concrete inputs here use). -/
def sortRRs (rrs : List RR) : List RR := List.insertionSort leRR rrs

/-- One iteration of the parse loop of `ReadAndParseZone`: the record is
appended to the accumulated array (the serial bump acts through the record
pointer, so the appended record is the updated one), and when the record is
an SOA (`rr.Header().Rrtype == dns.TypeSOA`, which for parser-produced
records coincides with the payload being an SOA payload) `args.MinTTL` is
overwritten with its `minimum` field. -/
def zoneLoopStep (updateSerial : Bool) (st : List RR × Nat) (rr : RR) : List RR × Nat :=
  match rr.rdata with
  | .soa _ _ _ _ _ _ minttl => (st.1 ++ [updateSOA updateSerial rr], minttl)
  | .other _ => (st.1 ++ [rr], st.2)

/-- The outcome of `ReadAndParseZone`: the sorted record array, the (possibly
dot-extended) `args.Zone`, and the final `args.MinTTL`. -/
structure ZoneResult where
  rrs : List RR
  zone : String
  minTTL : Nat
deriving DecidableEq, Repr

/-- Model of `ReadAndParseZone(args, updateSerial)`, with the zone-file parsing
delegated to the `dns` library modelled by the `parsed` record stream:
normalize `args.Zone` (panic = `none` on the empty name), run the parse loop
over the stream, then `sort.Sort` the array. -/
def readAndParseZone (zoneName : String) (minTTL0 : Nat) (updateSerial : Bool)
    (parsed : List RR) : Option ZoneResult := do
  let z ← normalizeZone zoneName
  let st := parsed.foldl (zoneLoopStep updateSerial) ([], minTTL0)
  pure ⟨sortRRs st.1, z, st.2⟩

/-- The retry loop of `AddNSEC13` in NSEC3 mode, observed for `fuel`
iterations: `succeeds k` tells whether the `k`-th call to
`args.RRs.AddNSEC3Records` returns a nil error.  `some k` means the loop
exited (`break`) at attempt `k`; `none` means the loop was still running
after `fuel` iterations.  Note the loop body discards the error value. -/
def addNSEC3Attempts (succeeds : Nat → Bool) : Nat → Nat → Option Nat
  | _, 0 => none
  | k, fuel + 1 => if succeeds k then some k else addNSEC3Attempts succeeds (k + 1) fuel

/-- Model of `AddNSEC13(args)`: in NSEC3 mode, loop on `AddNSEC3Records` until a call
succeeds; otherwise a single `AddNSECRecords` call.  The Go function has no
return value, so no error can be surfaced: the model returns `some ()` when
the function returns and `none` when the loop is still running after `fuel`
iterations. -/
def AddNSEC13 (nsec3 : Bool) (succeeds : Nat → Bool) (fuel : Nat) : Option Unit :=
  if nsec3 then (addNSEC3Attempts succeeds 0 fuel).map (fun _ => ()) else some ()

/-- A Go `time.Time`, reduced to what `CreateNewRRSIG` consumes: its Unix
seconds (`Unix()` floors to the second) and whether it `IsZero()`. -/
structure GoTime where
  unix : Int
  isZero : Bool
deriving DecidableEq, Repr

/-- Conversion `uint32(t.Unix())`: the low 32 bits of the signed seconds. -/
def u32ofInt (i : Int) : Nat := (i % (2 ^ 32 : Int)).toNat

/-- A `dns.DNSKEY`, reduced to the fields `CreateNewRRSIG` reads.
`keyTagVal` stands for the result of the library method `KeyTag()`
(RFC 4034 Appendix B, computed outside this repository). -/
structure DNSKEY where
  algorithm : Nat
  keyTagVal : Nat
deriving DecidableEq, Repr

/-- A `dns.RRSIG` value.  Fields that the composite literal in
`CreateNewRRSIG` does not mention take Go's zero value. -/
structure RRSIG where
  hdrName : String
  hdrRrtype : Nat
  hdrClass : Nat
  hdrTtl : Nat
  typeCovered : Nat
  algorithm : Nat
  labels : Nat
  origTtl : Nat
  expiration : Nat
  inception : Nat
  keyTag : Nat
  signerName : String
  signature : String
deriving DecidableEq, Repr

/-- Model of `CreateNewRRSIG(zone, dnsKeyRR, expDate, rrSetTTL)`.  The two calls to
`time.Now()` in the source are collapsed into the single instant `now`;
`addOneYear` stands for `time.Time.AddDate(1, 0, 0)` of the standard
library. -/
def CreateNewRRSIG (zone : String) (dnsKeyRR : DNSKEY) (expDate : GoTime)
    (rrSetTTL : Nat) (now : GoTime) (addOneYear : GoTime → GoTime) : RRSIG :=
  let expDate' := if expDate.isZero then addOneYear now else expDate
  { hdrName := ""
    hdrRrtype := 0
    hdrClass := 0
    -- Uses RRset TTL, not key TTL (the header TTL of the RRSIG)
    hdrTtl := rrSetTTL
    typeCovered := 0
    algorithm := dnsKeyRR.algorithm
    labels := 0
    origTtl := 0
    expiration := u32ofInt expDate'.unix
    inception := u32ofInt now.unix
    keyTag := dnsKeyRR.keyTagVal
    signerName := toLowerStr zone
    signature := "" }

/-- The character `fmt` uses for one hex digit of `%x` (lowercase). -/
def hexDigitChar (d : Nat) : Char :=
  if d < 10 then Char.ofNat (48 + d) else Char.ofNat (87 + d)

/-- Model of `fmt.Sprintf("%x", n)` for a non-negative integer: minimal lowercase
hexadecimal, no padding, `"0"` for zero. -/
def goHex (n : Nat) : String :=
  if n = 0 then "0" else ⟨((Nat.digits 16 n).map hexDigitChar).reverse⟩

/-- Model of `generateSalt()`, as a function of the value `r` returned by
`rand.Int31()` (a uniform value in `[0, 2^31)`): `fmt.Sprintf("%x", r)`. -/
def generateSalt (r : Nat) : String := goHex r

/-- The value of a lowercase hex digit character. -/
def hexVal (c : Char) : Nat :=
  if 97 ≤ c.toNat then c.toNat - 87 else c.toNat - 48

/-- A lowercase hexadecimal digit. -/
def isHexChar (c : Char) : Prop :=
  ('0' ≤ c ∧ c ≤ '9') ∨ ('a' ≤ c ∧ c ≤ 'f')

instance (c : Char) : Decidable (isHexChar c) := by
  unfold isHexChar; infer_instance

/-- The loop of `removeDuplicates`, with the `encountered` set (the Go map,
modelled as the list of keys set to `true`) and the `result` slice as
explicit state. -/
def removeDupLoop : List Nat → List Nat → List Nat → List Nat
  | _, result, [] => result
  | encountered, result, o :: objs =>
      if encountered.contains o then removeDupLoop encountered result objs
      else removeDupLoop (encountered ++ [o]) (result ++ [o]) objs

/-- Model of `removeDuplicates(objs)` on object handles (`pkcs11.ObjectHandle`,
an unsigned integer, modelled as `Nat`). -/
def removeDuplicates (objs : List Nat) : List Nat := removeDupLoop [] [] objs

/-- Reference first-occurrence deduplication: keep each handle once, at the
position of its first occurrence. -/
def firstOccur : List Nat → List Nat
  | [] => []
  | a :: l => a :: firstOccur (l.filter (fun x => x ≠ a))
termination_by l => l.length
decreasing_by
  simp only [List.length_cons]
  exact Nat.lt_succ_of_le (List.length_filter_le _ _)

/-! ## Helper lemmas -/

theorem data_ne_nil_of_ne_empty (z : String) (h : z ≠ "") : z.data ≠ [] := by
  intro hnil
  exact h (String.ext hnil)

theorem normalizeZone_last_dot (z : String)
    (h : z.data.get? (z.data.length - 1) = some '.') : normalizeZone z = some z := by
  unfold normalizeZone
  rw [h]
  simp

theorem normalizeZone_last_ne_dot (z : String) (c : Char)
    (h : z.data.get? (z.data.length - 1) = some c) (hc : c ≠ '.') :
    normalizeZone z = some (z ++ ".") := by
  unfold normalizeZone
  rw [h]
  simp [hc]

theorem exists_last_char (z : String) (h : z ≠ "") :
    ∃ c, z.data.get? (z.data.length - 1) = some c := by
  have hd := data_ne_nil_of_ne_empty z h
  have hlen : 0 < z.data.length := List.length_pos.mpr hd
  have hlt : z.data.length - 1 < z.data.length := Nat.sub_lt hlen Nat.one_pos
  exact ⟨z.data.get ⟨z.data.length - 1, hlt⟩, List.get?_eq_get hlt⟩

theorem normalizeZone_some (z : String) (h : z ≠ "") :
    ∃ z', normalizeZone z = some z' := by
  obtain ⟨c, hc⟩ := exists_last_char z h
  by_cases hdot : c = '.'
  · exact ⟨z, normalizeZone_last_dot z (hdot ▸ hc)⟩
  · exact ⟨z ++ ".", normalizeZone_last_ne_dot z c hc hdot⟩

theorem readAndParseZone_eq (z z' : String) (hz : normalizeZone z = some z')
    (m0 : Nat) (u : Bool) (parsed : List RR) :
    readAndParseZone z m0 u parsed =
      some ⟨sortRRs (parsed.foldl (zoneLoopStep u) ([], m0)).1, z',
            (parsed.foldl (zoneLoopStep u) ([], m0)).2⟩ := by
  unfold readAndParseZone
  rw [hz]
  rfl

theorem readAndParseZone_noneZone (z : String) (hz : normalizeZone z = none)
    (m0 : Nat) (u : Bool) (parsed : List RR) :
    readAndParseZone z m0 u parsed = none := by
  unfold readAndParseZone
  rw [hz]
  rfl

/-! ## Claim theorems -/

/-- C9: `ReadAndParseZone` unconditionally indexes `args.Zone` at position
`len(args.Zone)-1` before parsing; for the empty zone name that access is out
of bounds (the model panics, i.e. returns `none`); under the precondition
that the zone name is non-empty the access is in bounds and the function
returns a result. -/
theorem readAndParseZone_index_safety :
    (∀ (m0 : Nat) (u : Bool) (parsed : List RR), readAndParseZone "" m0 u parsed = none) ∧
    (∀ z : String, z ≠ "" →
      z.data.length - 1 < z.data.length ∧
      ∀ (m0 : Nat) (u : Bool) (parsed : List RR), (readAndParseZone z m0 u parsed).isSome) := by
  constructor
  · intro m0 u parsed
    exact readAndParseZone_noneZone "" (by decide) m0 u parsed
  · intro z hz
    have hd := data_ne_nil_of_ne_empty z hz
    have hlen : 0 < z.data.length := List.length_pos.mpr hd
    refine ⟨Nat.sub_lt hlen Nat.one_pos, ?_⟩
    intro m0 u parsed
    obtain ⟨z', hz'⟩ := normalizeZone_some z hz
    rw [readAndParseZone_eq z z' hz' m0 u parsed]
    rfl

/-- Witness for C9 at the concrete inputs `""` and `"a"`. -/
theorem readAndParseZone_index_safety_witness :
    readAndParseZone "" 0 true [] = none ∧
    (("a" : String) ≠ "" ∧ ("a" : String).data.length - 1 < ("a" : String).data.length ∧
      (readAndParseZone "a" 0 true []).isSome) :=
  ⟨readAndParseZone_index_safety.1 0 true [],
   by decide,
   (readAndParseZone_index_safety.2 "a" (by decide)).1,
   (readAndParseZone_index_safety.2 "a" (by decide)).2 0 true []⟩

/-- C5: after any call to `ReadAndParseZone` on a non-empty zone name,
`args.Zone` is fully qualified: its last character is the root dot, the dot
having been appended exactly once when absent and the name left unchanged
when already fully qualified. -/
theorem readAndParseZone_zone_fqdn (z : String) (m0 : Nat) (u : Bool) (parsed : List RR)
    (h : z ≠ "") :
    ∃ res, readAndParseZone z m0 u parsed = some res ∧
      res.zone.data.get? (res.zone.data.length - 1) = some '.' ∧
      (z.data.get? (z.data.length - 1) = some '.' → res.zone = z) ∧
      (z.data.get? (z.data.length - 1) ≠ some '.' → res.zone = z ++ ".") := by
  obtain ⟨c, hc⟩ := exists_last_char z h
  by_cases hdot : c = '.'
  · subst hdot
    rw [readAndParseZone_eq z z (normalizeZone_last_dot z hc) m0 u parsed]
    exact ⟨_, rfl, hc, fun _ => rfl, fun hne => absurd hc hne⟩
  · rw [readAndParseZone_eq z (z ++ ".") (normalizeZone_last_ne_dot z c hc hdot) m0 u parsed]
    refine ⟨_, rfl, ?_, ?_, fun _ => rfl⟩
    · show (z ++ ".").data.get? ((z ++ ".").data.length - 1) = some '.'
      have hdata : (z ++ ".").data = z.data ++ ['.'] := String.data_append z "."
      rw [hdata]
      have hlen : (z.data ++ ['.']).length - 1 = z.data.length := by
        simp
      rw [hlen, List.get?_eq_getElem?, List.getElem?_append_right (Nat.le_refl _)]
      simp
    · intro hsome
      rw [hc] at hsome
      exact absurd (Option.some.inj hsome) hdot

/-- Witness for C5 at the zone name `"example.com"` (no trailing dot). -/
theorem readAndParseZone_zone_fqdn_witness :
    ∃ res, readAndParseZone "example.com" 0 true [] = some res ∧
      res.zone.data.get? (res.zone.data.length - 1) = some '.' ∧
      (("example.com" : String).data.get? (("example.com" : String).data.length - 1) = some '.' →
        res.zone = "example.com") ∧
      (("example.com" : String).data.get? (("example.com" : String).data.length - 1) ≠ some '.' →
        res.zone = "example.com" ++ ".") :=
  readAndParseZone_zone_fqdn "example.com" 0 true [] (by decide)

theorem updateSOA_hdr (u : Bool) (rr : RR) : (updateSOA u rr).hdr = rr.hdr := by
  obtain ⟨hdr, rd⟩ := rr
  cases rd with
  | soa ns mbox s r1 r2 e mt => cases u <;> simp [updateSOA]
  | other raw => simp [updateSOA]

theorem updateSOA_false (rr : RR) : updateSOA false rr = rr := by
  obtain ⟨hdr, rd⟩ := rr
  cases rd <;> simp [updateSOA]

theorem updateSOA_notSOA (u : Bool) (rr : RR) (h : soaSerial rr = none) :
    updateSOA u rr = rr := by
  obtain ⟨hdr, rd⟩ := rr
  cases rd with
  | soa ns mbox s r1 r2 e mt => simp [soaSerial] at h
  | other raw => simp [updateSOA]

theorem soaSerial_updateSOA (rr : RR) :
    soaSerial (updateSOA true rr) = (soaSerial rr).map u32Add2 := by
  obtain ⟨hdr, rd⟩ := rr
  cases rd <;> simp [updateSOA, soaSerial]

theorem zoneLoop_fst (u : Bool) :
    ∀ (parsed acc : List RR) (m : Nat),
      (parsed.foldl (zoneLoopStep u) (acc, m)).1 = acc ++ parsed.map (updateSOA u)
  | [], acc, m => by simp
  | rr :: rest, acc, m => by
    obtain ⟨hdr, rd⟩ := rr
    cases rd with
    | soa ns mbox s r1 r2 e mt =>
      rw [List.foldl_cons, List.map_cons]
      show (rest.foldl (zoneLoopStep u)
          (acc ++ [updateSOA u ⟨hdr, .soa ns mbox s r1 r2 e mt⟩], mt)).1 = _
      rw [zoneLoop_fst u rest _ mt, List.append_assoc]
      rfl
    | other raw =>
      rw [List.foldl_cons, List.map_cons]
      show (rest.foldl (zoneLoopStep u) (acc ++ [⟨hdr, .other raw⟩], m)).1 = _
      rw [zoneLoop_fst u rest _ m, List.append_assoc]
      rw [updateSOA_notSOA u ⟨hdr, .other raw⟩ rfl]
      rfl

theorem zoneLoop_snd_noSOA (u : Bool) :
    ∀ (parsed : List RR) (acc : List RR) (m : Nat),
      (∀ rr ∈ parsed, soaMinttl rr = none) →
      (parsed.foldl (zoneLoopStep u) (acc, m)).2 = m
  | [], acc, m, _ => rfl
  | rr :: rest, acc, m, h => by
    obtain ⟨hdr, rd⟩ := rr
    cases rd with
    | soa ns mbox s r1 r2 e mt =>
      have := h ⟨hdr, .soa ns mbox s r1 r2 e mt⟩ (List.mem_cons_self _ _)
      simp [soaMinttl] at this
    | other raw =>
      rw [List.foldl_cons]
      show (rest.foldl (zoneLoopStep u) (acc ++ [⟨hdr, .other raw⟩], m)).2 = m
      exact zoneLoop_snd_noSOA u rest _ m (fun x hx => h x (List.mem_cons_of_mem _ hx))

/-- C6: after `ReadAndParseZone` processes a zone whose record stream
contains exactly one SOA record, `args.MinTTL` equals that SOA's `minimum`
field. -/
theorem readAndParseZone_minTTL (z : String) (m0 : Nat) (u : Bool)
    (l1 l2 : List RR) (soaRR : RR) (mt : Nat)
    (hz : z ≠ "")
    (hsoa : soaMinttl soaRR = some mt)
    (_h1 : ∀ rr ∈ l1, soaMinttl rr = none)
    (h2 : ∀ rr ∈ l2, soaMinttl rr = none) :
    ∃ res, readAndParseZone z m0 u (l1 ++ soaRR :: l2) = some res ∧ res.minTTL = mt := by
  obtain ⟨z', hz'⟩ := normalizeZone_some z hz
  rw [readAndParseZone_eq z z' hz' m0 u (l1 ++ soaRR :: l2)]
  refine ⟨_, rfl, ?_⟩
  show ((l1 ++ soaRR :: l2).foldl (zoneLoopStep u) ([], m0)).2 = mt
  rw [List.foldl_append, List.foldl_cons]
  obtain ⟨hdr, rd⟩ := soaRR
  cases rd with
  | other raw => simp [soaMinttl] at hsoa
  | soa ns mbox s r1 r2 e mt' =>
    have hmt : mt' = mt := by simpa [soaMinttl] using hsoa
    rw [← hmt]
    show (l2.foldl (zoneLoopStep u)
        ((l1.foldl (zoneLoopStep u) ([], m0)).1 ++
          [updateSOA u ⟨hdr, .soa ns mbox s r1 r2 e mt'⟩], mt')).2 = mt'
    exact zoneLoop_snd_noSOA u l2 _ mt' h2

/-- Witness for C6: a one-record stream holding the apex SOA of the test
zone, with `minimum` 10800. -/
theorem readAndParseZone_minTTL_witness :
    ∃ res, readAndParseZone "example.com" 0 true
        [⟨⟨"example.com.", 6, 1, 86400⟩,
          .soa "ns1.example.com." "hostmaster.example.com." 2019052103 10800 15 604800 10800⟩]
        = some res ∧ res.minTTL = 10800 :=
  readAndParseZone_minTTL "example.com" 0 true [] []
    ⟨⟨"example.com.", 6, 1, 86400⟩,
      .soa "ns1.example.com." "hostmaster.example.com." 2019052103 10800 15 604800 10800⟩
    10800 (by decide) rfl (by simp) (by simp)

/-- C3: with `updateSerial` true, every record of the returned array is the
corresponding parsed record with the serial of each SOA incremented by 2 (as
`uint32` arithmetic); with `updateSerial` false the records are returned
unchanged.  The returned array is the sorted permutation of the processed
stream. -/
theorem readAndParseZone_serial (z : String) (m0 : Nat) (parsed : List RR)
    (h : z ≠ "") :
    (∃ res, readAndParseZone z m0 true parsed = some res ∧
        res.rrs.Perm (parsed.map (updateSOA true))) ∧
    (∃ res, readAndParseZone z m0 false parsed = some res ∧ res.rrs.Perm parsed) ∧
    (∀ rr : RR,
        updateSOA false rr = rr ∧
        (updateSOA true rr).hdr = rr.hdr ∧
        soaSerial (updateSOA true rr) = (soaSerial rr).map u32Add2 ∧
        (soaSerial rr = none → updateSOA true rr = rr)) := by
  obtain ⟨z', hz'⟩ := normalizeZone_some z h
  refine ⟨?_, ?_, fun rr => ⟨updateSOA_false rr, updateSOA_hdr true rr,
    soaSerial_updateSOA rr, updateSOA_notSOA true rr⟩⟩
  · rw [readAndParseZone_eq z z' hz' m0 true parsed]
    refine ⟨_, rfl, ?_⟩
    show (sortRRs (parsed.foldl (zoneLoopStep true) ([], m0)).1).Perm _
    rw [zoneLoop_fst true parsed [] m0, List.nil_append]
    exact List.perm_insertionSort leRR _
  · rw [readAndParseZone_eq z z' hz' m0 false parsed]
    refine ⟨_, rfl, ?_⟩
    show (sortRRs (parsed.foldl (zoneLoopStep false) ([], m0)).1).Perm _
    rw [zoneLoop_fst false parsed [] m0, List.nil_append]
    have hmap : parsed.map (updateSOA false) = parsed := by
      rw [List.map_congr_left (fun rr _ => updateSOA_false rr)]
      exact List.map_id' parsed
    rw [hmap]
    exact List.perm_insertionSort leRR _

/-- Witness for C3 on a two-record stream (one SOA, one A record). -/
theorem readAndParseZone_serial_witness :
    (∃ res, readAndParseZone "example.com" 0 true
        [⟨⟨"example.com.", 6, 1, 86400⟩, .soa "ns1." "host." 2019052103 10800 15 604800 10800⟩,
         ⟨⟨"www.example.com.", 1, 1, 86400⟩, .other [127, 0, 0, 2]⟩] = some res ∧
        res.rrs.Perm
          ([⟨⟨"example.com.", 6, 1, 86400⟩, .soa "ns1." "host." 2019052103 10800 15 604800 10800⟩,
            ⟨⟨"www.example.com.", 1, 1, 86400⟩, .other [127, 0, 0, 2]⟩].map (updateSOA true))) ∧
    (∃ res, readAndParseZone "example.com" 0 false
        [⟨⟨"example.com.", 6, 1, 86400⟩, .soa "ns1." "host." 2019052103 10800 15 604800 10800⟩,
         ⟨⟨"www.example.com.", 1, 1, 86400⟩, .other [127, 0, 0, 2]⟩] = some res ∧
        res.rrs.Perm
          [⟨⟨"example.com.", 6, 1, 86400⟩, .soa "ns1." "host." 2019052103 10800 15 604800 10800⟩,
           ⟨⟨"www.example.com.", 1, 1, 86400⟩, .other [127, 0, 0, 2]⟩]) ∧
    (∀ rr : RR,
        updateSOA false rr = rr ∧
        (updateSOA true rr).hdr = rr.hdr ∧
        soaSerial (updateSOA true rr) = (soaSerial rr).map u32Add2 ∧
        (soaSerial rr = none → updateSOA true rr = rr)) :=
  readAndParseZone_serial "example.com" 0
    [⟨⟨"example.com.", 6, 1, 86400⟩, .soa "ns1." "host." 2019052103 10800 15 604800 10800⟩,
     ⟨⟨"www.example.com.", 1, 1, 86400⟩, .other [127, 0, 0, 2]⟩] (by decide)

/-- C7: the RRSIG constructed by `CreateNewRRSIG` carries an expiration equal
to `now + 1 year` when the caller-supplied date is absent (`IsZero`) and to
the supplied date otherwise, and an inception equal to `now` (floored to the
second by `Unix()`), both as the low 32 bits of the seconds-since-epoch
count. -/
theorem createNewRRSIG_times (zone : String) (dnsKeyRR : DNSKEY) (expDate : GoTime)
    (rrSetTTL : Nat) (now : GoTime) (addOneYear : GoTime → GoTime) :
    (CreateNewRRSIG zone dnsKeyRR expDate rrSetTTL now addOneYear).expiration
      = (if expDate.isZero then u32ofInt (addOneYear now).unix else u32ofInt expDate.unix) ∧
    (CreateNewRRSIG zone dnsKeyRR expDate rrSetTTL now addOneYear).inception
      = u32ofInt now.unix := by
  cases h : expDate.isZero <;> simp [CreateNewRRSIG, h]

/-- C8 counterexample: the claim says the constructed RRSIG's original-TTL
field equals the RRset TTL, but `CreateNewRRSIG` writes the RRset TTL into
the header TTL and never mentions `OrigTtl`, which keeps Go's zero value:
with `rrSetTTL = 86400` the original-TTL field is 0, not 86400. -/
theorem createNewRRSIG_origTtl_counterexample :
    (CreateNewRRSIG "example.com." ⟨8, 1234⟩ ⟨0, false⟩ 86400 ⟨1700000000, false⟩ id).origTtl
      ≠ 86400 ∧
    (CreateNewRRSIG "example.com." ⟨8, 1234⟩ ⟨0, false⟩ 86400 ⟨1700000000, false⟩ id).origTtl
      = 0 := by
  constructor <;> decide

/-- C8 (amended): `CreateNewRRSIG` writes the RRset TTL into the RRSIG's
header TTL (per the in-source comment citing RFC 4034 §3); the original-TTL
RDATA field is left at Go's zero value; and the signer name is the
lowercased zone apex. -/
theorem createNewRRSIG_ttl_signer (zone : String) (dnsKeyRR : DNSKEY) (expDate : GoTime)
    (rrSetTTL : Nat) (now : GoTime) (addOneYear : GoTime → GoTime) :
    (CreateNewRRSIG zone dnsKeyRR expDate rrSetTTL now addOneYear).hdrTtl = rrSetTTL ∧
    (CreateNewRRSIG zone dnsKeyRR expDate rrSetTTL now addOneYear).origTtl = 0 ∧
    (CreateNewRRSIG zone dnsKeyRR expDate rrSetTTL now addOneYear).signerName
      = toLowerStr zone := by
  exact ⟨rfl, rfl, rfl⟩

theorem addNSEC3Attempts_none (succeeds : Nat → Bool)
    (hfail : ∀ n, succeeds n = false) :
    ∀ (fuel k : Nat), addNSEC3Attempts succeeds k fuel = none
  | 0, _ => rfl
  | fuel + 1, k => by
    rw [addNSEC3Attempts, hfail k]
    simpa using addNSEC3Attempts_none succeeds hfail fuel (k + 1)

theorem addNSEC3Attempts_first_success (succeeds : Nat → Bool) (n : Nat)
    (hn : succeeds n = true) (hbefore : ∀ m, m < n → succeeds m = false) :
    ∀ (fuel k : Nat), k ≤ n → n < k + fuel → addNSEC3Attempts succeeds k fuel = some n
  | 0, k, hk, hlt => absurd hlt (by omega)
  | fuel + 1, k, hk, hlt => by
    rw [addNSEC3Attempts]
    rcases Nat.lt_or_ge k n with hkn | hkn
    · rw [hbefore k hkn]
      simpa using addNSEC3Attempts_first_success succeeds n hn hbefore fuel (k + 1)
        (by omega) (by omega)
    · have hkeq : k = n := Nat.le_antisymm hk hkn
      rw [hkeq, hn]
      simp

/-- C2 counterexample: in NSEC3 mode, when the first `AddNSEC3Records` call
reports an error and the second succeeds, `AddNSEC13` silently retries and
returns normally at attempt 1 (its `void` signature cannot surface any
error); and when every call errors, the loop is still running after 100
iterations instead of failing. -/
theorem addNSEC13_counterexample :
    AddNSEC13 true (fun k => k == 1) 10 = some () ∧
    addNSEC3Attempts (fun k => k == 1) 0 10 = some 1 ∧
    AddNSEC13 true (fun _ => false) 100 = none := by
  refine ⟨by decide, by decide, by decide⟩

/-- C2 (amended): in NSEC3 mode `AddNSEC13` retries `AddNSEC3Records` in an
unbounded loop until some call succeeds; an error is never surfaced (the
function returns no value), and if every call errors the loop never
terminates. -/
theorem addNSEC13_retries_unbounded (succeeds : Nat → Bool) :
    ((∀ n, succeeds n = false) → ∀ fuel, AddNSEC13 true succeeds fuel = none) ∧
    (∀ n, succeeds n = true → (∀ m, m < n → succeeds m = false) →
      ∀ fuel, n < fuel → AddNSEC13 true succeeds fuel = some ()) := by
  constructor
  · intro hfail fuel
    unfold AddNSEC13
    rw [if_pos rfl, addNSEC3Attempts_none succeeds hfail fuel 0]
    rfl
  · intro n hn hbefore fuel hlt
    unfold AddNSEC13
    rw [if_pos rfl, addNSEC3Attempts_first_success succeeds n hn hbefore fuel 0
      (Nat.zero_le n) (by omega)]
    rfl

/-- Witness for C2 with an always-failing and a second-try-succeeds call
sequence. -/
theorem addNSEC13_retries_unbounded_witness :
    AddNSEC13 true (fun _ => false) 3 = none ∧
    AddNSEC13 true (fun k => k == 1) 10 = some () :=
  ⟨(addNSEC13_retries_unbounded (fun _ => false)).1 (fun _ => rfl) 3,
   (addNSEC13_retries_unbounded (fun k => k == 1)).2 1 rfl
     (fun m hm => by
       have hm0 : m = 0 := by omega
       rw [hm0]
       rfl)
     10 (by omega)⟩

/-- The tail of the `removeDuplicates` loop as a function of the
`encountered` set alone: the handles not yet encountered, first occurrences
only. -/
def filtFirst (enc : List Nat) : List Nat → List Nat
  | [] => []
  | o :: objs => if enc.contains o then filtFirst enc objs
                 else o :: filtFirst (enc ++ [o]) objs

theorem removeDupLoop_eq (l : List Nat) : ∀ (enc res : List Nat),
    removeDupLoop enc res l = res ++ filtFirst enc l := by
  induction l with
  | nil => intro enc res; simp [removeDupLoop, filtFirst]
  | cons o objs ih =>
    intro enc res
    cases h : enc.contains o with
    | true =>
      rw [removeDupLoop, filtFirst]
      simp only [h, if_true, ite_true]
      exact ih enc res
    | false =>
      rw [removeDupLoop, filtFirst]
      simp only [h, Bool.false_eq_true, if_false, ite_false]
      rw [ih, List.append_assoc]
      rfl

theorem contains_append_singleton (enc : List Nat) (o x : Nat) :
    (enc ++ [o]).contains x = (enc.contains x || decide (x = o)) := by
  show List.elem x (enc ++ [o]) = (List.elem x enc || decide (x = o))
  rw [List.elem_eq_mem, List.elem_eq_mem]
  by_cases h1 : x ∈ enc <;> by_cases h2 : x = o <;>
    simp [h1, h2, List.mem_append]

theorem filtFirst_eq_firstOccur : ∀ (l enc : List Nat),
    filtFirst enc l = firstOccur (l.filter (fun x => !enc.contains x))
  | [], enc => by simp [filtFirst, firstOccur]
  | o :: objs, enc => by
    cases h : enc.contains o with
    | true =>
      rw [filtFirst, List.filter_cons]
      simp only [h, if_true, ite_true, Bool.not_true, Bool.false_eq_true, if_false, ite_false]
      exact filtFirst_eq_firstOccur objs enc
    | false =>
      rw [filtFirst, List.filter_cons]
      simp only [h, Bool.false_eq_true, if_false, ite_false, Bool.not_false, if_true, ite_true]
      rw [firstOccur, filtFirst_eq_firstOccur objs (enc ++ [o])]
      have hfilters :
          objs.filter (fun x => !(enc ++ [o]).contains x)
            = (objs.filter (fun x => !enc.contains x)).filter (fun x => x ≠ o) := by
        rw [List.filter_filter]
        apply List.filter_congr
        intro a _
        rw [contains_append_singleton]
        by_cases h1 : enc.contains a = true <;> by_cases h2 : a = o <;>
          simp [h1, h2]
      rw [hfilters]

theorem mem_firstOccur (x : Nat) : ∀ l : List Nat, x ∈ firstOccur l ↔ x ∈ l
  | [] => by rw [firstOccur]
  | a :: l => by
    rw [firstOccur]
    have ih := mem_firstOccur x (l.filter (fun y => y ≠ a))
    by_cases hxa : x = a
    · subst hxa; simp
    · simp only [List.mem_cons, ih, List.mem_filter]
      simp [hxa]
termination_by l => l.length
decreasing_by
  simp only [List.length_cons]
  exact Nat.lt_succ_of_le (List.length_filter_le _ _)

theorem nodup_firstOccur : ∀ l : List Nat, (firstOccur l).Nodup
  | [] => by rw [firstOccur]; exact List.nodup_nil
  | a :: l => by
    rw [firstOccur, List.nodup_cons]
    refine ⟨?_, nodup_firstOccur (l.filter (fun y => y ≠ a))⟩
    intro hmem
    rw [mem_firstOccur] at hmem
    have := (List.mem_filter.mp hmem).2
    simp at this
termination_by l => l.length
decreasing_by
  simp only [List.length_cons]
  exact Nat.lt_succ_of_le (List.length_filter_le _ _)

theorem firstOccur_of_nodup : ∀ l : List Nat, l.Nodup → firstOccur l = l
  | [], _ => by rw [firstOccur]
  | a :: l, h => by
    rw [firstOccur]
    rw [List.nodup_cons] at h
    have hfilter : l.filter (fun y => y ≠ a) = l := by
      apply List.filter_eq_self.mpr
      intro b hb
      simp only [decide_eq_true_eq, ne_eq]
      intro hba
      exact h.1 (hba ▸ hb)
    rw [hfilter, firstOccur_of_nodup l h.2]

theorem removeDuplicates_eq_firstOccur (objs : List Nat) :
    removeDuplicates objs = firstOccur objs := by
  show removeDupLoop [] [] objs = firstOccur objs
  rw [removeDupLoop_eq, List.nil_append, filtFirst_eq_firstOccur]
  congr 1
  apply List.filter_eq_self.mpr
  intro a _
  rfl

/-- C10: `removeDuplicates` returns exactly the distinct handles of its
input, each once (no duplicates, same membership), in order of first
occurrence (it coincides with the canonical first-occurrence
deduplication), and it is idempotent. -/
theorem removeDuplicates_spec (objs : List Nat) :
    removeDuplicates objs = firstOccur objs ∧
    (removeDuplicates objs).Nodup ∧
    (∀ x, x ∈ removeDuplicates objs ↔ x ∈ objs) ∧
    removeDuplicates (removeDuplicates objs) = removeDuplicates objs := by
  have he := removeDuplicates_eq_firstOccur objs
  refine ⟨he, ?_, ?_, ?_⟩
  · rw [he]; exact nodup_firstOccur objs
  · intro x; rw [he]; exact mem_firstOccur x objs
  · rw [he, removeDuplicates_eq_firstOccur, firstOccur_of_nodup _ (nodup_firstOccur objs)]

theorem isHexChar_hexDigitChar (d : Nat) (h : d < 16) : isHexChar (hexDigitChar d) := by
  interval_cases d <;> decide

theorem hexVal_hexDigitChar (d : Nat) (h : d < 16) : hexVal (hexDigitChar d) = d := by
  interval_cases d <;> decide

/-- C1 counterexample: `rand.Int31()` can return 5 (any value in `[0, 2^31)`
is possible), and then the salt is the one-character string `"5"`: odd
length, not the rendering of a 4-octet value. -/
theorem generateSalt_counterexample :
    5 < 2 ^ 31 ∧ generateSalt 5 = "5" ∧ (generateSalt 5).length % 2 = 1 := by
  have h5 : Nat.digits 16 5 = [5] := by
    rw [Nat.digits_def' (by norm_num : (1 : ℕ) < 16) (by norm_num : 0 < 5)]
    norm_num
  refine ⟨by norm_num, ?_, ?_⟩
  · simp only [generateSalt, goHex, h5]
    decide
  · simp only [generateSalt, goHex, h5]
    decide

/-- C1 (amended): the salt produced by `generateSalt` is the minimal
lowercase-hexadecimal rendering (no zero padding) of a random value in
`[0, 2^31)`: every character is a lowercase hex digit, the length is between
1 and 8 (so possibly odd, and the value is never a full uniform 4 octets),
and reading the string back as big-endian hex recovers the random value. -/
theorem generateSalt_hex (r : Nat) (h : r < 2 ^ 31) :
    (∀ c ∈ (generateSalt r).data, isHexChar c) ∧
    1 ≤ (generateSalt r).length ∧ (generateSalt r).length ≤ 8 ∧
    Nat.ofDigits 16 ((generateSalt r).data.reverse.map hexVal) = r := by
  by_cases h0 : r = 0
  · subst h0
    refine ⟨?_, ?_, ?_, ?_⟩ <;> simp [generateSalt, goHex] <;> decide
  · have hd : generateSalt r = ⟨((Nat.digits 16 r).map hexDigitChar).reverse⟩ := by
      simp [generateSalt, goHex, h0]
    have hdata : (generateSalt r).data = ((Nat.digits 16 r).map hexDigitChar).reverse := by
      rw [hd]
    have hlen : (generateSalt r).length = (Nat.digits 16 r).length := by
      rw [hd, String.length_mk, List.length_reverse, List.length_map]
    refine ⟨?_, ?_, ?_, ?_⟩
    · intro c hc
      rw [hdata, List.mem_reverse, List.mem_map] at hc
      obtain ⟨d, hdm, hdc⟩ := hc
      exact hdc ▸ isHexChar_hexDigitChar d (Nat.digits_lt_base (by norm_num) hdm)
    · rw [hlen]
      have hne : Nat.digits 16 r ≠ [] := Nat.digits_ne_nil_iff_ne_zero.mpr h0
      exact List.length_pos.mpr hne
    · rw [hlen, Nat.digits_len 16 r (by norm_num) h0]
      have hlog : Nat.log 16 r < 8 := by
        rw [← Nat.lt_pow_iff_log_lt (by norm_num) h0]
        calc r < 2 ^ 31 := h
        _ ≤ 16 ^ 8 := by norm_num
      omega
    · rw [hdata, List.reverse_reverse, List.map_map]
      have hmap : (Nat.digits 16 r).map (hexVal ∘ hexDigitChar) = Nat.digits 16 r := by
        simp only [Function.comp_def]
        rw [List.map_congr_left
          (fun d hdm => hexVal_hexDigitChar d (Nat.digits_lt_base (by norm_num) hdm))]
        exact List.map_id' _
      rw [hmap]
      exact Nat.ofDigits_digits 16 r

/-- Witness for C1 at the random value 5. -/
theorem generateSalt_hex_witness :
    5 < 2 ^ 31 ∧
    ((∀ c ∈ (generateSalt 5).data, isHexChar c) ∧
      1 ≤ (generateSalt 5).length ∧ (generateSalt 5).length ≤ 8 ∧
      Nat.ofDigits 16 ((generateSalt 5).data.reverse.map hexVal) = 5) :=
  ⟨by norm_num, generateSalt_hex 5 (by norm_num)⟩

instance : IsTotal RR leRR :=
  ⟨fun a b => by
    unfold leRR
    rcases lt_trichotomy (nameLabels a) (nameLabels b) with h | h | h
    · exact Or.inl (Or.inl h)
    · rcases Nat.le_total a.hdr.rrtype b.hdr.rrtype with ht | ht
      · exact Or.inl (Or.inr ⟨h, ht⟩)
      · exact Or.inr (Or.inr ⟨h.symm, ht⟩)
    · exact Or.inr (Or.inl h)⟩

instance : IsTrans RR leRR :=
  ⟨fun a b c hab hbc => by
    unfold leRR at hab hbc ⊢
    rcases hab with h1 | ⟨e1, t1⟩
    · rcases hbc with h2 | ⟨e2, t2⟩
      · exact Or.inl (lt_trans h1 h2)
      · exact Or.inl (e2 ▸ h1)
    · rcases hbc with h2 | ⟨e2, t2⟩
      · exact Or.inl (e1 ▸ h2)
      · exact Or.inr ⟨e1.trans e2, Nat.le_trans t1 t2⟩⟩

theorem leRR_antisymm_key (a b : RR) (h1 : leRR a b) (h2 : leRR b a) :
    nameLabels a = nameLabels b ∧ a.hdr.rrtype = b.hdr.rrtype := by
  unfold leRR at h1 h2
  rcases h1 with h1 | ⟨e1, t1⟩
  · rcases h2 with h2 | ⟨e2, t2⟩
    · exact absurd h2 (lt_asymm h1)
    · rw [e2] at h1
      exact absurd h1 (lt_irrefl _)
  · rcases h2 with h2 | ⟨e2, t2⟩
    · rw [e1] at h2
      exact absurd h2 (lt_irrefl _)
    · exact ⟨e1, Nat.le_antisymm t1 t2⟩

/-- A sorted list is determined by its multiset of elements, provided the
ordering does not identify two distinct elements that are present. -/
theorem sorted_unique {α : Type} {r : α → α → Prop} {l₁ : List α} :
    ∀ {l₂ : List α}, l₁.Perm l₂ → l₁.Sorted r → l₂.Sorted r →
      (∀ a ∈ l₁, ∀ b ∈ l₁, r a b → r b a → a = b) → l₁ = l₂ := by
  induction l₁ with
  | nil =>
    intro l₂ hp _ _ _
    exact hp.nil_eq
  | cons a t₁ ih =>
    intro l₂ hp hs₁ hs₂ hanti
    cases l₂ with
    | nil => simpa using hp.eq_nil
    | cons b t₂ =>
      by_cases hab : a = b
      · subst hab
        have ht : t₁.Perm t₂ := (List.perm_cons a).mp hp
        have hteq := ih ht hs₁.of_cons hs₂.of_cons
          (fun x hx y hy hxy hyx =>
            hanti x (List.mem_cons_of_mem _ hx) y (List.mem_cons_of_mem _ hy) hxy hyx)
        rw [hteq]
      · have ha2 : a ∈ b :: t₂ := hp.mem_iff.mp (List.mem_cons_self a t₁)
        have hat2 : a ∈ t₂ := by
          rcases List.mem_cons.mp ha2 with h | h
          · exact absurd h hab
          · exact h
        have hb1 : b ∈ a :: t₁ := hp.symm.mem_iff.mp (List.mem_cons_self b t₂)
        have hbt1 : b ∈ t₁ := by
          rcases List.mem_cons.mp hb1 with h | h
          · exact absurd h.symm hab
          · exact h
        have hrba : r b a := (List.sorted_cons.mp hs₂).1 a hat2
        have hrab : r a b := (List.sorted_cons.mp hs₁).1 b hbt1
        exact absurd
          (hanti a (List.mem_cons_self a t₁) b (List.mem_cons_of_mem _ hbt1) hrab hrba) hab

/-- C4 counterexample: two input streams that are permutations of the same
two-record multiset (two A records at the same owner name and type,
differing in RDATA) yield different sorted outputs: the comparator orders
records by owner name and type only, so the sort preserves the input order
of the two tied records. -/
theorem readAndParseZone_order_counterexample :
    ([⟨⟨"www.example.com.", 1, 1, 86400⟩, .other [127, 0, 0, 1]⟩,
      ⟨⟨"www.example.com.", 1, 1, 86400⟩, .other [127, 0, 0, 2]⟩] : List RR).Perm
      [⟨⟨"www.example.com.", 1, 1, 86400⟩, .other [127, 0, 0, 2]⟩,
       ⟨⟨"www.example.com.", 1, 1, 86400⟩, .other [127, 0, 0, 1]⟩] ∧
    (readAndParseZone "example.com." 0 false
        [⟨⟨"www.example.com.", 1, 1, 86400⟩, .other [127, 0, 0, 1]⟩,
         ⟨⟨"www.example.com.", 1, 1, 86400⟩, .other [127, 0, 0, 2]⟩]).map ZoneResult.rrs
      ≠ (readAndParseZone "example.com." 0 false
          [⟨⟨"www.example.com.", 1, 1, 86400⟩, .other [127, 0, 0, 2]⟩,
           ⟨⟨"www.example.com.", 1, 1, 86400⟩, .other [127, 0, 0, 1]⟩]).map ZoneResult.rrs := by
  constructor
  · decide
  · decide

/-- C4 (amended): for any two input streams that are permutations of the
same record multiset in which no two distinct records share both owner-name
key and type, `ReadAndParseZone` returns identical sorted record lists,
ordered canonically (owner names label-reversed after lowercasing, ties by
type code). -/
theorem readAndParseZone_canonical_order (z : String) (m0 : Nat) (u : Bool)
    (l₁ l₂ : List RR) (hp : l₁.Perm l₂)
    (hkeys : ∀ a ∈ l₁, ∀ b ∈ l₁, a ≠ b →
      (nameLabels a, a.hdr.rrtype) ≠ (nameLabels b, b.hdr.rrtype)) :
    (readAndParseZone z m0 u l₁).map ZoneResult.rrs
      = (readAndParseZone z m0 u l₂).map ZoneResult.rrs := by
  cases hz : normalizeZone z with
  | none => rw [readAndParseZone_noneZone z hz m0 u l₁, readAndParseZone_noneZone z hz m0 u l₂]
  | some z' =>
    rw [readAndParseZone_eq z z' hz m0 u l₁, readAndParseZone_eq z z' hz m0 u l₂]
    show some (sortRRs ((l₁.foldl (zoneLoopStep u) ([], m0)).1)) = _
    rw [zoneLoop_fst u l₁ [] m0, zoneLoop_fst u l₂ [] m0, List.nil_append, List.nil_append]
    congr 1
    have hperm : (sortRRs (l₁.map (updateSOA u))).Perm (sortRRs (l₂.map (updateSOA u))) :=
      ((List.perm_insertionSort leRR _).trans (hp.map (updateSOA u))).trans
        (List.perm_insertionSort leRR _).symm
    apply sorted_unique hperm (List.sorted_insertionSort leRR _)
      (List.sorted_insertionSort leRR _)
    intro x hx y hy hxy hyx
    have hx' : x ∈ l₁.map (updateSOA u) := (List.perm_insertionSort leRR _).mem_iff.mp hx
    have hy' : y ∈ l₁.map (updateSOA u) := (List.perm_insertionSort leRR _).mem_iff.mp hy
    obtain ⟨x₀, hx₀, rfl⟩ := List.mem_map.mp hx'
    obtain ⟨y₀, hy₀, rfl⟩ := List.mem_map.mp hy'
    have hkey := leRR_antisymm_key _ _ hxy hyx
    have hnx : nameLabels (updateSOA u x₀) = nameLabels x₀ := by
      unfold nameLabels
      rw [updateSOA_hdr]
    have hny : nameLabels (updateSOA u y₀) = nameLabels y₀ := by
      unfold nameLabels
      rw [updateSOA_hdr]
    have htx : (updateSOA u x₀).hdr.rrtype = x₀.hdr.rrtype := by rw [updateSOA_hdr]
    have hty : (updateSOA u y₀).hdr.rrtype = y₀.hdr.rrtype := by rw [updateSOA_hdr]
    by_cases hxy0 : x₀ = y₀
    · rw [hxy0]
    · exfalso
      apply hkeys x₀ hx₀ y₀ hy₀ hxy0
      have h1 : nameLabels x₀ = nameLabels y₀ := by
        rw [← hnx, ← hny]
        exact hkey.1
      have h2 : x₀.hdr.rrtype = y₀.hdr.rrtype := by
        rw [← htx, ← hty]
        exact hkey.2
      rw [h1, h2]

/-- Witness for C4: two permuted streams of two A records with distinct
owner names. -/
theorem readAndParseZone_canonical_order_witness :
    (readAndParseZone "example.com." 0 false
        [⟨⟨"www.example.com.", 1, 1, 86400⟩, .other [127, 0, 0, 2]⟩,
         ⟨⟨"ns1.example.com.", 1, 1, 86400⟩, .other [127, 0, 0, 1]⟩]).map ZoneResult.rrs
      = (readAndParseZone "example.com." 0 false
          [⟨⟨"ns1.example.com.", 1, 1, 86400⟩, .other [127, 0, 0, 1]⟩,
           ⟨⟨"www.example.com.", 1, 1, 86400⟩, .other [127, 0, 0, 2]⟩]).map ZoneResult.rrs :=
  readAndParseZone_canonical_order "example.com." 0 false
    [⟨⟨"www.example.com.", 1, 1, 86400⟩, .other [127, 0, 0, 2]⟩,
     ⟨⟨"ns1.example.com.", 1, 1, 86400⟩, .other [127, 0, 0, 1]⟩]
    [⟨⟨"ns1.example.com.", 1, 1, 86400⟩, .other [127, 0, 0, 1]⟩,
     ⟨⟨"www.example.com.", 1, 1, 86400⟩, .other [127, 0, 0, 2]⟩]
    (by decide) (by decide)

